import Mathlib

/-!
Shallow embedding of the inventory state-management core of `src/App.tsx`
(smart-fridge inventory app): the data model (`InventoryItem`), the store
mutations (`handleAddItem`, `moveToTrash`, `restoreFromTrash`, `deleteForever`,
`handleUpdateQuantity`), the initial-load logic, the freshness classifier
(`getFreshnessColor`, `getDaysStored`) and the view projector (`filteredItems`).

Modelling choices:
- `quantity` and deltas are `Int` (JS numbers used as integers by the app).
- `addedDate` is the epoch-millisecond timestamp `Int` (the app stores an ISO
  string and always compares via `new Date(s).getTime()`).
- `crypto.randomUUID()` and `Date.now()` are nondeterministic inputs; they are
  passed as explicit parameters (`freshId`, `now`).
- JS `Array.prototype.sort` is stable (ES2019); it is modelled by a stable
  insertion sort `sortDesc` on the descending `addedDate` order, which agrees
  with any stable sort for the comparator `(a, b) => b.getTime() - a.getTime()`.
- `localStorage.getItem` + `JSON.parse` outcomes are modelled by `LoadResult`:
  the key is absent, the saved string parses to a collection, or parsing throws.
-/

namespace Fridge

/-- The closed category enumeration of `src/types` as used by `App.tsx`. -/
inductive Category where
  | MEAT
  | VEGETABLE
  | FRUIT
  | SEAFOOD
  | OTHER
  deriving DecidableEq

/-- `InventoryItem` of `src/types`: the fields `App.tsx` reads and writes. -/
structure InventoryItem where
  id : String
  name : String
  quantity : Int
  unit : String
  category : Category
  addedDate : Int
  isDeleted : Bool
  deriving DecidableEq

/-- The argument of `handleAddItem`: `Omit<InventoryItem, 'id' | 'addedDate'>`
(it still carries `isDeleted`, which `handleAddItem` overrides with `false`). -/
structure Draft where
  name : String
  quantity : Int
  unit : String
  category : Category
  isDeleted : Bool
  deriving DecidableEq

/-- `handleAddItem` (App.tsx:44-52): builds the new item from the draft with a
fresh id and the current instant, forces `isDeleted := false`, and prepends it. -/
def handleAddItem (prev : List InventoryItem) (draft : Draft) (freshId : String)
    (now : Int) : List InventoryItem :=
  { id := freshId, name := draft.name, quantity := draft.quantity,
    unit := draft.unit, category := draft.category, addedDate := now,
    isDeleted := false } :: prev

/-- `moveToTrash` (App.tsx:54-56): flag the matching item as deleted. -/
def moveToTrash (items : List InventoryItem) (id : String) : List InventoryItem :=
  items.map fun item => if item.id = id then { item with isDeleted := true } else item

/-- `restoreFromTrash` (App.tsx:58-60): clear the matching item's deleted flag. -/
def restoreFromTrash (items : List InventoryItem) (id : String) : List InventoryItem :=
  items.map fun item => if item.id = id then { item with isDeleted := false } else item

/-- `deleteForever` (App.tsx:62-64): drop the matching item from the collection. -/
def deleteForever (items : List InventoryItem) (id : String) : List InventoryItem :=
  items.filter fun item => item.id ≠ id

/-- The per-item body of the `map` in `handleUpdateQuantity` (App.tsx:67-73). -/
def updateQuantityOne (id : String) (delta : Int) (item : InventoryItem) :
    InventoryItem :=
  if item.id = id then
    let newQty := item.quantity + delta
    if 0 < newQty then { item with quantity := newQty } else item
  else item

/-- `handleUpdateQuantity` (App.tsx:66-74). -/
def handleUpdateQuantity (items : List InventoryItem) (id : String) (delta : Int) :
    List InventoryItem :=
  items.map (updateQuantityOne id delta)

/-- `getDaysStored` (App.tsx:77-82): `floor(|now - added| / 86400000)` in ms. -/
def getDaysStored (addedDate now : Int) : Nat :=
  (now - addedDate).natAbs / (1000 * 60 * 60 * 24)

/-- The record `getFreshnessColor` returns (colour classes and label). -/
structure FreshnessStyle where
  bg : String
  text : String
  border : String
  label : String
  deriving DecidableEq

/-- The `days <= 3` tier of `getFreshnessColor` (App.tsx:95). -/
def FRESH : FreshnessStyle :=
  { bg := "bg-emerald-50", text := "text-emerald-600",
    border := "border-emerald-100", label := "新鲜" }

/-- The `days <= 7` tier of `getFreshnessColor` (App.tsx:96). -/
def MEDIUM : FreshnessStyle :=
  { bg := "bg-amber-50", text := "text-amber-600",
    border := "border-amber-100", label := "良" }

/-- The fallthrough tier of `getFreshnessColor` (App.tsx:97). -/
def OLD : FreshnessStyle :=
  { bg := "bg-rose-50", text := "text-rose-600",
    border := "border-rose-100", label := "久置" }

/-- `getFreshnessColor` (App.tsx:94-98). -/
def getFreshnessColor (days : Nat) : FreshnessStyle :=
  if days ≤ 3 then FRESH
  else if days ≤ 7 then MEDIUM
  else OLD

/-- The `Category | 'ALL'` filter state of the app. -/
inductive CategoryFilter where
  | ALL
  | only (c : Category)
  deriving DecidableEq

/-- `filterCategory === 'ALL' || item.category === filterCategory` (App.tsx:117). -/
def matchesCategory (filterCategory : CategoryFilter) (item : InventoryItem) : Bool :=
  match filterCategory with
  | .ALL => true
  | .only c => item.category = c

/-- Whether `pre` is a leading run of `l` (character lists). -/
def isPrefixList : List Char → List Char → Bool
  | [], _ => true
  | _ :: _, [] => false
  | a :: as, b :: bs => a = b && isPrefixList as bs

/-- Substring containment on character lists; the empty needle always matches,
as with JS `String.prototype.includes`. -/
def containsSub (needle : List Char) : List Char → Bool
  | [] => isPrefixList needle []
  | c :: rest => isPrefixList needle (c :: rest) || containsSub needle rest

/-- `s.toLowerCase()` as a character list: per-character ASCII case folding,
the folding Lean's own `String.toLower` applies (CJK characters are fixed). -/
def lowerChars (s : String) : List Char := s.toList.map Char.toLower

/-- `item.name.toLowerCase().includes(searchTerm.toLowerCase())` (App.tsx:118). -/
def matchesSearch (searchTerm : String) (item : InventoryItem) : Bool :=
  containsSub (lowerChars searchTerm) (lowerChars item.name)

/-- The filter body of `filteredItems` (App.tsx:111-119): trash mode keeps
exactly the deleted items; normal mode keeps active items matching both the
category filter and the search term. -/
def visibleFilter (showTrash : Bool) (filterCategory : CategoryFilter)
    (searchTerm : String) (item : InventoryItem) : Bool :=
  if showTrash then item.isDeleted
  else if item.isDeleted then false
  else matchesCategory filterCategory item && matchesSearch searchTerm item

/-- Stable insertion into a list sorted by `addedDate` descending: the new
element goes in front of the first element whose date is ≤ its own. -/
def insertDesc (x : InventoryItem) : List InventoryItem → List InventoryItem
  | [] => [x]
  | y :: ys => if y.addedDate ≤ x.addedDate then x :: y :: ys else y :: insertDesc x ys

/-- Stable sort by `addedDate` descending: the model of the stable JS
`sort((a, b) => dateOf b - dateOf a)` in App.tsx:120. -/
def sortDesc : List InventoryItem → List InventoryItem
  | [] => []
  | x :: xs => insertDesc x (sortDesc xs)

/-- `filteredItems` (App.tsx:110-121): filter, then stable-sort newest first. -/
def filteredItems (items : List InventoryItem) (filterCategory : CategoryFilter)
    (searchTerm : String) (showTrash : Bool) : List InventoryItem :=
  sortDesc (items.filter (visibleFilter showTrash filterCategory searchTerm))

/-- The demo seed collection (App.tsx:30-35), as a function of `Date.now()`. -/
def seedItems (now : Int) : List InventoryItem :=
  [ { id := "1", name := "全脂牛奶", quantity := 1, unit := "L",
      category := Category.OTHER, addedDate := now - 86400000 * 1, isDeleted := false },
    { id := "2", name := "基围虾", quantity := 20, unit := "只",
      category := Category.SEAFOOD, addedDate := now - 86400000 * 0, isDeleted := false },
    { id := "3", name := "上海青", quantity := 3, unit := "把",
      category := Category.VEGETABLE, addedDate := now - 86400000 * 4, isDeleted := false },
    { id := "4", name := "牛排", quantity := 2, unit := "块",
      category := Category.MEAT, addedDate := now - 86400000 * 8, isDeleted := false } ]

/-- Outcome of `localStorage.getItem(STORAGE_KEY)` followed by `JSON.parse`:
the key is absent (`missing`), the saved string parses (`parsed`), or
`JSON.parse` throws (`unparseable`). -/
inductive LoadResult where
  | missing
  | parsed (items : List InventoryItem)
  | unparseable
  deriving DecidableEq

/-- The load effect (App.tsx:20-37) applied to the initial state `[]`: a saved
string that parses replaces the state; a parse error is caught and leaves the
state as `[]`; only a missing key installs the demo seed data. -/
def initialItems : LoadResult → Int → List InventoryItem
  | .parsed items, _ => items
  | .unparseable, _ => []
  | .missing, now => seedItems now

/-- A soft-deleted sample item, for concrete witnesses and counterexamples. -/
def sampleTrashed : InventoryItem :=
  { id := "1", name := "牛排", quantity := 2, unit := "块",
    category := Category.MEAT, addedDate := 0, isDeleted := true }

/-- A validated sample draft (`quantity = 3 ≥ 1`). -/
def sampleDraft : Draft :=
  { name := "苹果", quantity := 3, unit := "个", category := Category.FRUIT,
    isDeleted := false }

/-- A draft a careless caller could pass: `quantity = 0`. -/
def zeroDraft : Draft :=
  { name := "空盒", quantity := 0, unit := "个", category := Category.OTHER,
    isDeleted := false }

/-- The item `handleAddItem` builds from `zeroDraft` with id `"u1"` at instant 0. -/
def zeroItem : InventoryItem :=
  { id := "u1", name := "空盒", quantity := 0, unit := "个",
    category := Category.OTHER, addedDate := 0, isDeleted := false }

theorem map_eq_self_of {α : Type} {f : α → α} {l : List α}
    (h : ∀ x ∈ l, f x = x) : l.map f = l := by
  induction l with
  | nil => rfl
  | cons x xs ih =>
    simp only [List.map_cons]
    rw [h x (List.mem_cons_self x xs), ih fun y hy => h y (List.mem_cons_of_mem x hy)]

theorem forall₂_map_self {α β : Type} {R : α → β → Prop} {f : α → β} {l : List α}
    (h : ∀ x ∈ l, R x (f x)) : List.Forall₂ R l (l.map f) := by
  induction l with
  | nil => exact List.Forall₂.nil
  | cons x xs ih =>
    exact List.Forall₂.cons (h x (List.mem_cons_self x xs))
      (ih fun y hy => h y (List.mem_cons_of_mem x hy))

theorem insertDesc_perm (x : InventoryItem) (l : List InventoryItem) :
    List.Perm (insertDesc x l) (x :: l) := by
  induction l with
  | nil => exact List.Perm.refl _
  | cons y ys ih =>
    unfold insertDesc
    by_cases h : y.addedDate ≤ x.addedDate
    · rw [if_pos h]
    · rw [if_neg h]
      exact (ih.cons y).trans (List.Perm.swap x y ys)

theorem sortDesc_perm (l : List InventoryItem) : List.Perm (sortDesc l) l := by
  induction l with
  | nil => exact List.Perm.refl _
  | cons x xs ih => exact (insertDesc_perm x (sortDesc xs)).trans (ih.cons x)

theorem mem_insertDesc {x z : InventoryItem} {l : List InventoryItem} :
    z ∈ insertDesc x l ↔ z = x ∨ z ∈ l := by
  rw [(insertDesc_perm x l).mem_iff, List.mem_cons]

theorem pairwise_insertDesc {x : InventoryItem} {l : List InventoryItem}
    (hl : List.Pairwise (fun a b => b.addedDate ≤ a.addedDate) l) :
    List.Pairwise (fun a b => b.addedDate ≤ a.addedDate) (insertDesc x l) := by
  induction l with
  | nil => exact List.pairwise_singleton _ x
  | cons y ys ih =>
    unfold insertDesc
    by_cases h : y.addedDate ≤ x.addedDate
    · rw [if_pos h]
      refine List.Pairwise.cons ?_ hl
      intro z hz
      rcases List.mem_cons.mp hz with rfl | hz
      · exact h
      · exact le_trans ((List.pairwise_cons.mp hl).1 z hz) h
    · rw [if_neg h]
      rcases List.pairwise_cons.mp hl with ⟨hy, hys⟩
      refine List.Pairwise.cons ?_ (ih hys)
      intro z hz
      rcases mem_insertDesc.mp hz with rfl | hz
      · exact le_of_lt (lt_of_not_le h)
      · exact hy z hz

theorem pairwise_sortDesc (l : List InventoryItem) :
    List.Pairwise (fun a b => b.addedDate ≤ a.addedDate) (sortDesc l) := by
  induction l with
  | nil => exact List.Pairwise.nil
  | cons x xs ih => exact pairwise_insertDesc ih

theorem filter_insertDesc_neg {p : InventoryItem → Bool} {x : InventoryItem}
    (hx : p x = false) (l : List InventoryItem) :
    (insertDesc x l).filter p = l.filter p := by
  induction l with
  | nil => simp [insertDesc, hx]
  | cons y ys ih =>
    unfold insertDesc
    by_cases h : y.addedDate ≤ x.addedDate
    · rw [if_pos h, List.filter_cons, hx]
      simp only [Bool.false_eq_true, if_false]
    · rw [if_neg h, List.filter_cons, List.filter_cons, ih]

theorem filter_insertDesc_pos {t : Int} {x : InventoryItem}
    (hx : x.addedDate = t) (l : List InventoryItem) :
    (insertDesc x l).filter (fun z => z.addedDate == t)
      = x :: l.filter (fun z => z.addedDate == t) := by
  induction l with
  | nil => simp [insertDesc, hx]
  | cons y ys ih =>
    unfold insertDesc
    by_cases h : y.addedDate ≤ x.addedDate
    · rw [if_pos h, List.filter_cons]
      simp only [hx, beq_self_eq_true, if_true]
    · rw [if_neg h, List.filter_cons]
      have hy : (y.addedDate == t) = false := by
        rw [beq_eq_false_iff_ne]
        intro he
        exact h (he.trans hx.symm).le
      rw [hy]
      simp only [Bool.false_eq_true, if_false, ih]
      rw [List.filter_cons, hy]
      simp only [Bool.false_eq_true, if_false]

theorem filter_key_sortDesc (l : List InventoryItem) (t : Int) :
    (sortDesc l).filter (fun z => z.addedDate == t)
      = l.filter (fun z => z.addedDate == t) := by
  induction l with
  | nil => rfl
  | cons x xs ih =>
    show (insertDesc x (sortDesc xs)).filter _ = _
    by_cases hx : x.addedDate = t
    · rw [filter_insertDesc_pos hx, ih, List.filter_cons]
      simp only [hx, beq_self_eq_true, if_true]
    · rw [filter_insertDesc_neg (by rwa [beq_eq_false_iff_ne]), ih, List.filter_cons]
      have : (x.addedDate == t) = false := by rwa [beq_eq_false_iff_ne]
      rw [this]
      simp only [Bool.false_eq_true, if_false]

theorem containsSub_nil (l : List Char) : containsSub [] l = true := by
  cases l with
  | nil => rfl
  | cons c rest => rfl

theorem matchesSearch_empty (it : InventoryItem) : matchesSearch "" it = true := by
  unfold matchesSearch
  exact containsSub_nil _

theorem updateQuantityOne_pos {id : String} {delta : Int} {it : InventoryItem}
    (h : it.id = id) (hq : 0 < it.quantity + delta) :
    updateQuantityOne id delta it = { it with quantity := it.quantity + delta } := by
  simp only [updateQuantityOne, if_pos h, if_pos hq]

theorem updateQuantityOne_rejected {id : String} {delta : Int} {it : InventoryItem}
    (h : it.id = id) (hq : it.quantity + delta ≤ 0) :
    updateQuantityOne id delta it = it := by
  simp only [updateQuantityOne, if_pos h, if_neg (not_lt.mpr hq)]

theorem updateQuantityOne_other {id : String} {delta : Int} {it : InventoryItem}
    (h : ¬ it.id = id) : updateQuantityOne id delta it = it := by
  simp only [updateQuantityOne, if_neg h]

/-- C1: `adjustQuantity` never drives a stored quantity to `≤ 0`: positivity of
every item is preserved, an item with the given id whose `quantity + delta` is
positive gets exactly that new quantity, one whose `quantity + delta ≤ 0` is
kept as is, and when every item carrying the id would be rejected the whole
collection is returned exactly as it was (silent rejection, no clamping). -/
theorem C1_adjustQuantity_quantity_floor (items : List InventoryItem) (id : String)
    (delta : Int) :
    ((∀ it ∈ items, it.id = id → it.quantity + delta ≤ 0) →
        handleUpdateQuantity items id delta = items)
    ∧ List.Forall₂ (fun old new =>
          (0 < old.quantity → 0 < new.quantity)
          ∧ (old.id = id → 0 < old.quantity + delta →
              new = { old with quantity := old.quantity + delta })
          ∧ (old.id = id → old.quantity + delta ≤ 0 → new = old))
        items (handleUpdateQuantity items id delta) := by
  constructor
  · intro hall
    apply map_eq_self_of
    intro it hit
    by_cases h : it.id = id
    · exact updateQuantityOne_rejected h (hall it hit h)
    · exact updateQuantityOne_other h
  · apply forall₂_map_self
    intro it _
    by_cases h : it.id = id
    · by_cases hq : 0 < it.quantity + delta
      · rw [updateQuantityOne_pos h hq]
        exact ⟨fun _ => hq, fun _ _ => rfl, fun _ hle => absurd hq (not_lt.mpr hle)⟩
      · rw [updateQuantityOne_rejected h (le_of_not_lt hq)]
        exact ⟨fun hp => hp, fun _ hq2 => absurd hq2 hq, fun _ _ => rfl⟩
    · rw [updateQuantityOne_other h]
      exact ⟨fun hp => hp, fun hid => absurd hid h, fun hid => absurd hid h⟩

/-- C2 counterexample: on unparseable persisted data the store does not adopt
the seed collection — it keeps the initial empty collection, while the seed
collection is non-empty. -/
theorem C2_counterexample_unparseable_not_seed :
    initialItems LoadResult.unparseable 0 = [] ∧ seedItems 0 ≠ [] := by
  exact ⟨rfl, by decide⟩

/-- C2 (amended): a valid persisted collection is adopted verbatim; a missing
saved state installs the fixed four-item seed collection; unparseable persisted
data is discarded and the store keeps its initial empty collection (it does not
fall back to the seed). -/
theorem C2_initial_load (now : Int) (items : List InventoryItem) :
    initialItems (LoadResult.parsed items) now = items
    ∧ initialItems LoadResult.missing now = seedItems now
    ∧ (seedItems now).length = 4
    ∧ initialItems LoadResult.unparseable now = [] :=
  ⟨rfl, rfl, rfl, rfl⟩

/-- C8: the freshness tiers are exactly `0–3 → FRESH`, `4–7 → MEDIUM`,
`8+ → OLD` (contiguous, exhaustive, non-overlapping), with the boundary values
`3` and `7` in the lower tier: `classify 3 = FRESH`, `classify 4 = MEDIUM`,
`classify 7 = MEDIUM`, `classify 8 = OLD`. -/
theorem C8_freshness_tiers (d : Nat) :
    (getFreshnessColor d = FRESH ↔ d ≤ 3)
    ∧ (getFreshnessColor d = MEDIUM ↔ 4 ≤ d ∧ d ≤ 7)
    ∧ (getFreshnessColor d = OLD ↔ 8 ≤ d)
    ∧ getFreshnessColor 3 = FRESH ∧ getFreshnessColor 4 = MEDIUM
    ∧ getFreshnessColor 7 = MEDIUM ∧ getFreshnessColor 8 = OLD := by
  have e1 : ∀ n, n ≤ 3 → getFreshnessColor n = FRESH := by
    intro n h
    unfold getFreshnessColor
    rw [if_pos h]
  have e2 : ∀ n, 4 ≤ n → n ≤ 7 → getFreshnessColor n = MEDIUM := by
    intro n h4 h7
    unfold getFreshnessColor
    rw [if_neg (by omega), if_pos h7]
  have e3 : ∀ n, 8 ≤ n → getFreshnessColor n = OLD := by
    intro n h8
    unfold getFreshnessColor
    rw [if_neg (by omega), if_neg (by omega)]
  have hFM : FRESH ≠ MEDIUM := by decide
  have hFO : FRESH ≠ OLD := by decide
  have hMO : MEDIUM ≠ OLD := by decide
  have bounds : getFreshnessColor 3 = FRESH ∧ getFreshnessColor 4 = MEDIUM
      ∧ getFreshnessColor 7 = MEDIUM ∧ getFreshnessColor 8 = OLD :=
    ⟨e1 3 (by omega), e2 4 (by omega) (by omega),
      e2 7 (by omega) (by omega), e3 8 (by omega)⟩
  have tri : d ≤ 3 ∨ (4 ≤ d ∧ d ≤ 7) ∨ 8 ≤ d := by omega
  rcases tri with h | h | h
  · rw [e1 d h]
    exact ⟨iff_of_true rfl h, iff_of_false hFM (by omega), iff_of_false hFO (by omega),
      bounds⟩
  · rw [e2 d h.1 h.2]
    exact ⟨iff_of_false (Ne.symm hFM) (by omega), iff_of_true rfl h,
      iff_of_false hMO (by omega), bounds⟩
  · rw [e3 d h]
    exact ⟨iff_of_false (Ne.symm hFO) (by omega), iff_of_false (Ne.symm hMO) (by omega),
      iff_of_true rfl h, bounds⟩

theorem map_congr_mem {α β : Type} {f g : α → β} {l : List α}
    (h : ∀ x ∈ l, f x = g x) : l.map f = l.map g := by
  induction l with
  | nil => rfl
  | cons x xs ih =>
    simp only [List.map_cons]
    rw [h x (List.mem_cons_self x xs), ih fun y hy => h y (List.mem_cons_of_mem x hy)]

theorem roundtrip_eq (items : List InventoryItem) (id : String) :
    restoreFromTrash (moveToTrash items id) id
      = items.map fun it => if it.id = id then { it with isDeleted := false } else it := by
  unfold moveToTrash restoreFromTrash
  rw [List.map_map]
  apply map_congr_mem
  intro it _
  by_cases h : it.id = id <;> simp [Function.comp, h]

/-- C9: `softDelete` then `restore` on the same id leaves that item with
`isDeleted = false` and every other field — and every other item — exactly as
before, and each of the two operations is idempotent. -/
theorem C9_softDelete_restore_roundtrip (items : List InventoryItem) (id : String) :
    List.Forall₂ (fun old new =>
        (old.id = id → new = { old with isDeleted := false })
        ∧ (old.id ≠ id → new = old))
      items (restoreFromTrash (moveToTrash items id) id)
    ∧ moveToTrash (moveToTrash items id) id = moveToTrash items id
    ∧ restoreFromTrash (restoreFromTrash items id) id = restoreFromTrash items id := by
  refine ⟨?_, ?_, ?_⟩
  · rw [roundtrip_eq]
    apply forall₂_map_self
    intro it _
    constructor
    · intro h
      rw [if_pos h]
    · intro h
      rw [if_neg h]
  · unfold moveToTrash
    rw [List.map_map]
    apply map_congr_mem
    intro it _
    by_cases h : it.id = id <;> simp [Function.comp, h]
  · unfold restoreFromTrash
    rw [List.map_map]
    apply map_congr_mem
    intro it _
    by_cases h : it.id = id <;> simp [Function.comp, h]

/-- C10: whenever `adjustQuantity` touches the collection, only the `quantity`
field of items carrying the given id can change — `id`, `name`, `unit`,
`category`, `addedDate` and `isDeleted` are untouched on every item, and an
item with a different id is returned exactly as it was. -/
theorem C10_adjustQuantity_frame (items : List InventoryItem) (id : String)
    (delta : Int) :
    List.Forall₂ (fun old new =>
        new.id = old.id ∧ new.name = old.name ∧ new.unit = old.unit
        ∧ new.category = old.category ∧ new.addedDate = old.addedDate
        ∧ new.isDeleted = old.isDeleted
        ∧ (old.id ≠ id → new = old))
      items (handleUpdateQuantity items id delta) := by
  apply forall₂_map_self
  intro it _
  by_cases h : it.id = id
  · by_cases hq : 0 < it.quantity + delta
    · rw [updateQuantityOne_pos h hq]
      exact ⟨rfl, rfl, rfl, rfl, rfl, rfl, fun hne => absurd h hne⟩
    · rw [updateQuantityOne_rejected h (le_of_not_lt hq)]
      exact ⟨rfl, rfl, rfl, rfl, rfl, rfl, fun _ => rfl⟩
  · rw [updateQuantityOne_other h]
    exact ⟨rfl, rfl, rfl, rfl, rfl, rfl, fun _ => rfl⟩

/-- C3 counterexample: on a collection whose only item with id "1" is
soft-deleted, `adjustQuantity("1", +1)` does NOT leave the collection
unchanged — the trashed item's quantity is raised from 2 to 3. -/
theorem C3_counterexample_deleted_item_updated :
    handleUpdateQuantity [sampleTrashed] "1" 1 ≠ [sampleTrashed] := by decide

/-- C3 (amended): `adjustQuantity` checks only the id and the quantity floor,
never `isDeleted`: any item carrying the id — active or soft-deleted — whose
`quantity + delta` is positive is updated to that new quantity. -/
theorem C3_update_ignores_deleted_flag (items : List InventoryItem) (id : String)
    (delta : Int) (it : InventoryItem) (hmem : it ∈ items) (hid : it.id = id)
    (hq : 0 < it.quantity + delta) :
    { it with quantity := it.quantity + delta } ∈ handleUpdateQuantity items id delta := by
  rw [← updateQuantityOne_pos hid hq]
  exact List.mem_map_of_mem _ hmem

/-- C3 witness: the soft-deleted sample item's quantity is raised from 2 to 3. -/
theorem C3_witness_trashed_item_updated :
    { sampleTrashed with quantity := sampleTrashed.quantity + 1 }
      ∈ handleUpdateQuantity [sampleTrashed] "1" 1 :=
  C3_update_ignores_deleted_flag [sampleTrashed] "1" 1 sampleTrashed
    (List.mem_singleton.mpr rfl) rfl (by decide)

/-- C4: `add` prepends exactly one new item — `isDeleted = false`, the draft's
`name`/`quantity`/`unit`/`category`, `addedDate = now`, the fresh id — and
leaves every pre-existing item unchanged; the hypothesis that the fresh id
differs from all stored ids models `crypto.randomUUID()` uniqueness. -/
theorem C4_add_creates_one_new_item (prev : List InventoryItem) (draft : Draft)
    (freshId : String) (now : Int) (hfresh : ∀ it ∈ prev, it.id ≠ freshId) :
    ∃ newIt : InventoryItem,
      handleAddItem prev draft freshId now = newIt :: prev
      ∧ newIt.isDeleted = false ∧ newIt.quantity = draft.quantity
      ∧ newIt.name = draft.name ∧ newIt.unit = draft.unit
      ∧ newIt.category = draft.category ∧ newIt.addedDate = now
      ∧ newIt.id = freshId ∧ ∀ it ∈ prev, it.id ≠ newIt.id :=
  ⟨_, rfl, rfl, rfl, rfl, rfl, rfl, rfl, rfl, hfresh⟩

/-- C4 witness: adding `sampleDraft` to the empty collection at instant 5. -/
theorem C4_witness_add_sample :
    ∃ newIt : InventoryItem,
      handleAddItem [] sampleDraft "u1" 5 = newIt :: []
      ∧ newIt.isDeleted = false ∧ newIt.quantity = sampleDraft.quantity
      ∧ newIt.name = sampleDraft.name ∧ newIt.unit = sampleDraft.unit
      ∧ newIt.category = sampleDraft.category ∧ newIt.addedDate = 5
      ∧ newIt.id = "u1" ∧ ∀ it ∈ ([] : List InventoryItem), it.id ≠ newIt.id :=
  C4_add_creates_one_new_item [] sampleDraft "u1" 5
    (fun it h => absurd h (List.not_mem_nil it))

/-- C5 counterexample: fed the unvalidated `zeroDraft` (quantity 0), the store
constructs and stores an item whose quantity is 0 ≤ 0. -/
theorem C5_counterexample_zero_quantity :
    handleAddItem [] zeroDraft "u1" 0 = [zeroItem] ∧ zeroItem.quantity ≤ 0 := by
  exact ⟨rfl, by decide⟩

/-- C5 (amended): the store copies the draft's quantity verbatim and performs
no validation of its own: the created item's quantity equals the draft's, so it
is ≥ 1 exactly when the supplied draft's quantity is ≥ 1. -/
theorem C5_add_quantity_verbatim (prev : List InventoryItem) (draft : Draft)
    (freshId : String) (now : Int) (hdraft : 1 ≤ draft.quantity) :
    ∃ newIt : InventoryItem,
      handleAddItem prev draft freshId now = newIt :: prev
      ∧ newIt.quantity = draft.quantity ∧ 1 ≤ newIt.quantity :=
  ⟨_, rfl, rfl, hdraft⟩

/-- C5 witness: adding the validated `sampleDraft` (quantity 3). -/
theorem C5_witness_valid_draft :
    ∃ newIt : InventoryItem,
      handleAddItem [] sampleDraft "u1" 5 = newIt :: []
      ∧ newIt.quantity = sampleDraft.quantity ∧ 1 ≤ newIt.quantity :=
  C5_add_quantity_verbatim [] sampleDraft "u1" 5 (by decide)

theorem visibleFilter_normal_eq (fc : CategoryFilter) (st : String)
    (it : InventoryItem) :
    visibleFilter false fc st it
      = (!it.isDeleted && (matchesCategory fc it && matchesSearch st it)) := by
  unfold visibleFilter
  cases h : it.isDeleted <;> simp [h]

theorem filter_congr_mem {α : Type} {p q : α → Bool} {l : List α}
    (h : ∀ x ∈ l, p x = q x) : l.filter p = l.filter q := by
  induction l with
  | nil => rfl
  | cons x xs ih =>
    rw [List.filter_cons, List.filter_cons,
      h x (List.mem_cons_self x xs), ih fun y hy => h y (List.mem_cons_of_mem x hy)]

/-- C6: in trash mode the projection keeps exactly the soft-deleted items
(sorted newest first): the result is the same for every category filter and
every search term, it is a permutation of `filter isDeleted`, and an item
appears in it precisely when it is a soft-deleted member of the collection. -/
theorem C6_trash_mode_ignores_filters (items : List InventoryItem)
    (fc : CategoryFilter) (st : String) :
    filteredItems items fc st true = sortDesc (items.filter fun it => it.isDeleted)
    ∧ (∀ fc' st', filteredItems items fc' st' true = filteredItems items fc st true)
    ∧ List.Perm (filteredItems items fc st true) (items.filter fun it => it.isDeleted)
    ∧ (∀ it, it ∈ filteredItems items fc st true ↔ it ∈ items ∧ it.isDeleted = true) := by
  have he : ∀ (fc0 : CategoryFilter) (st0 : String), filteredItems items fc0 st0 true
      = sortDesc (items.filter fun it => it.isDeleted) := by
    intro fc0 st0
    unfold filteredItems
    exact congrArg sortDesc (filter_congr_mem fun it _ => rfl)
  refine ⟨he fc st, fun fc' st' => (he fc' st').trans (he fc st).symm, ?_, ?_⟩
  · rw [he fc st]
    exact sortDesc_perm _
  · intro it
    rw [he fc st, (sortDesc_perm _).mem_iff, List.mem_filter]

/-- C7: in normal mode the projection keeps exactly the active items matching
the category filter and (case-insensitively, substring-wise) the search term —
the empty search term matches every item — ordered by `addedDate` descending,
and stably so: for each timestamp, the items carrying it appear in their
candidate-set order. -/
theorem C7_normal_mode_projection (items : List InventoryItem) (fc : CategoryFilter)
    (st : String) :
    List.Perm (filteredItems items fc st false)
      (items.filter fun it =>
        !it.isDeleted && (matchesCategory fc it && matchesSearch st it))
    ∧ (∀ it, it ∈ filteredItems items fc st false ↔
        it ∈ items ∧ it.isDeleted = false ∧ matchesCategory fc it = true
          ∧ matchesSearch st it = true)
    ∧ List.Pairwise (fun a b => b.addedDate ≤ a.addedDate)
        (filteredItems items fc st false)
    ∧ (∀ t : Int, (filteredItems items fc st false).filter (fun it => it.addedDate == t)
        = (items.filter fun it =>
            !it.isDeleted && (matchesCategory fc it && matchesSearch st it)).filter
            (fun it => it.addedDate == t))
    ∧ (∀ it, matchesSearch "" it = true) := by
  have he : filteredItems items fc st false
      = sortDesc (items.filter fun it =>
          !it.isDeleted && (matchesCategory fc it && matchesSearch st it)) := by
    unfold filteredItems
    exact congrArg sortDesc
      (filter_congr_mem fun it _ => visibleFilter_normal_eq fc st it)
  refine ⟨?_, ?_, ?_, ?_, matchesSearch_empty⟩
  · rw [he]
    exact sortDesc_perm _
  · intro it
    rw [he, (sortDesc_perm _).mem_iff, List.mem_filter]
    simp [Bool.and_eq_true, Bool.not_eq_true', and_assoc]
  · rw [he]
    exact pairwise_sortDesc _
  · intro t
    rw [he, filter_key_sortDesc]
